import Mathlib

/-!
Shallow embedding of the campaign-lottery and post-scheduling core of the
repository (src/src/services/CampaignService.ts and the SchedulerService),
together with proofs of the behavioural claims about it.

Modelling conventions:
* TypeScript Date values are epoch-millisecond integers (Int).
* TypeScript numbers used as counters (quantity, remaining) are Int.
* Math.random() results are rationals; each call site receives the drawn
  value as an explicit parameter (r1, r2, or a stream g : Nat -> Rat).
  A value produced by Math.random() lies in [0,1); theorems hypothesise
  this where the code relies on it.
* A JavaScript Map String->V is an association list with unique keys,
  mapSet replacing in place or appending, mapGet returning the first hit.
* A run-time crash (out-of-range index dereference) is modelled by
  Option-valued operations returning none.
-/

namespace Howto

/-- The three campaign type variants. -/
inductive CampaignType
  | later_lottery
  | instant_web
  | instant_auto
deriving Repr, DecidableEq

/-- Campaign lifecycle status. -/
inductive CampaignStatus
  | draft
  | active
  | ended
deriving Repr, DecidableEq

/-- Prize record (types/index.ts interface Prize). -/
structure Prize where
  id : String
  name : String
  quantity : Int
  remaining : Int
  imageUrl : Option String := none
deriving Repr, DecidableEq, Inhabited

/-- Participant record (types/index.ts interface Participant). -/
structure Participant where
  userId : String
  username : String
  enteredAt : Int
  won : Bool
  prizeId : Option String := none
deriving Repr, DecidableEq, Inhabited

/-- CampaignRules (types/index.ts). winProbability is optional. -/
structure CampaignRules where
  requireFollow : Bool
  requireRetweet : Bool
  requireLike : Bool
  requireHashtag : Option String := none
  winProbability : Option ℚ := none
deriving Repr, DecidableEq

/-- Campaign record (types/index.ts interface Campaign). -/
structure Campaign where
  id : String
  name : String
  type : CampaignType
  description : String
  startDate : Int
  endDate : Int
  prizes : List Prize
  participants : List Participant
  status : CampaignStatus
  rules : CampaignRules
  createdAt : Int
  updatedAt : Int
deriving Repr, DecidableEq

/-- The fields of an XUser that the campaign engine reads. -/
structure XUser where
  id : String
  username : String
deriving Repr, DecidableEq

/-- Lookup in a JavaScript Map modelled as an association list. -/
def mapGet {α : Type} (m : List (String × α)) (k : String) : Option α :=
  (m.find? (fun kv => kv.1 == k)).map Prod.snd

/-- Map.set: replace the value under an existing key in place, else
append (JavaScript Map keys are unique and keep insertion order). -/
def mapSet {α : Type} (m : List (String × α)) (k : String) (v : α) :
    List (String × α) :=
  match m with
  | [] => [(k, v)]
  | kv :: rest => if kv.1 == k then (k, v) :: rest else kv :: mapSet rest k v

/-- Map.values as a list, in insertion order. -/
def mapValues {α : Type} (m : List (String × α)) : List α :=
  m.map Prod.snd

/-- JavaScript `x || d` on an optional number: undefined and 0 are falsy,
so both fall back to the default. -/
def jsOrDefault (x : Option ℚ) (d : ℚ) : ℚ :=
  match x with
  | none => d
  | some v => if v = 0 then d else v

/-- JavaScript truthiness of an optional string: undefined and the empty
string are falsy. -/
def jsTruthyStr (x : Option String) : Bool :=
  match x with
  | none => false
  | some s => s ≠ ""

/-- The campaign engine state: the private campaigns map. -/
abbrev CampaignStore := List (String × Campaign)

/-- CampaignService.createCampaign. The generated id arrives as the
explicit parameter id; now stands for the Date constructor calls. -/
def createCampaign (s : CampaignStore) (id name : String) (type : CampaignType)
    (description : String) (startDate endDate : Int) (prizes : List Prize)
    (rules : CampaignRules) (now : Int) : Campaign × CampaignStore :=
  let campaign : Campaign :=
    { id := id
      name := name
      type := type
      description := description
      startDate := startDate
      endDate := endDate
      prizes := prizes.map (fun p => { p with remaining := p.quantity })
      participants := []
      status := .draft
      rules := rules
      createdAt := now
      updatedAt := now }
  (campaign, mapSet s id campaign)

/-- CampaignService.getActiveCampaigns. -/
def getActiveCampaigns (s : CampaignStore) (now : Int) : List Campaign :=
  (mapValues s).filter (fun c =>
    decide (c.status = .active) && decide (c.startDate ≤ now) &&
      decide (c.endDate ≥ now))

/-- CampaignService.startCampaign. -/
def startCampaign (s : CampaignStore) (id : String) (now : Int) :
    Option Campaign × CampaignStore :=
  match mapGet s id with
  | none => (none, s)
  | some campaign =>
    let campaign := { campaign with status := .active, updatedAt := now }
    (some campaign, mapSet s id campaign)

/-- CampaignService.endCampaign. -/
def endCampaign (s : CampaignStore) (id : String) (now : Int) :
    Option Campaign × CampaignStore :=
  match mapGet s id with
  | none => (none, s)
  | some campaign =>
    let campaign := { campaign with status := .ended, updatedAt := now }
    (some campaign, mapSet s id campaign)

/-- Result shape of runInstantLottery. -/
structure InstantResult where
  won : Bool
  prizeId : Option String := none
deriving Repr, DecidableEq

/-- The positions of the prizes with remaining > 0, in order; these are the
indices into campaign.prizes of the availablePrizes array. -/
def availablePrizeIdx (prizes : List Prize) : List Nat :=
  (List.range prizes.length).filter
    (fun j => decide (0 < (prizes.getD j default).remaining))

/-- CampaignService.runInstantLottery. r1 is the Math.random() used for the
win check (the code compares r1 * 100 with the win probability), r2 the one
used to pick the prize. Mutating prize.remaining on an element of the
filtered availablePrizes array mutates the aliased element of
campaign.prizes, so the model updates campaign.prizes at that position.
An out-of-range prize index (possible only for r2 outside [0,1)) would
dereference undefined and crash; that is the none case. -/
def runInstantLottery (campaign : Campaign) (r1 r2 : ℚ) :
    Option (InstantResult × Campaign) :=
  let avail := availablePrizeIdx campaign.prizes
  if avail.length = 0 then
    some ({ won := false }, campaign)
  else
    let winProbability := jsOrDefault campaign.rules.winProbability 10
    let random := r1 * 100
    if random < winProbability then
      let i : Int := Int.floor (r2 * (avail.length : ℚ))
      if h : 0 ≤ i ∧ i.toNat < avail.length then
        let j := avail.get ⟨i.toNat, h.2⟩
        let prize := campaign.prizes.getD j default
        some ({ won := true, prizeId := some prize.id },
          { campaign with
              prizes := campaign.prizes.set j
                { prize with remaining := prize.remaining - 1 } })
      else
        none
    else
      some ({ won := false }, campaign)

/-- CampaignService.enterCampaign. now is the entry timestamp, r1 and r2
the two Math.random() draws consumed when the campaign is an instant
variant. Returns the boolean the method returns, or none on a crash. -/
def enterCampaign (s : CampaignStore) (campaignId : String) (user : XUser)
    (now : Int) (r1 r2 : ℚ) : Option (Bool × CampaignStore) :=
  match mapGet s campaignId with
  | none => some (false, s)
  | some campaign =>
    if campaign.status ≠ .active then
      some (false, s)
    else if campaign.participants.any (fun p => p.userId == user.id) then
      some (false, s)
    else
      let participant : Participant :=
        { userId := user.id
          username := user.username
          enteredAt := now
          won := false }
      if campaign.type = .instant_web ∨ campaign.type = .instant_auto then
        match runInstantLottery campaign r1 r2 with
        | none => none
        | some (result, campaign) =>
          let participant :=
            if result.won && jsTruthyStr result.prizeId then
              { participant with won := true, prizeId := result.prizeId }
            else
              participant
          let campaign :=
            { campaign with
                participants := campaign.participants ++ [participant] }
          some (true, mapSet s campaignId campaign)
      else
        let campaign :=
          { campaign with
              participants := campaign.participants ++ [participant] }
        some (true, mapSet s campaignId campaign)

/-- Inner loop of runLaterLottery for one prize: draw up to n more winners
from the eligible pool. participants is the campaign's participant list,
eligible the positions (into that list) of the spliceable
eligibleParticipants array, winners the accumulator, k the index of the
next Math.random() value in the stream g. Returns the updated participant
list, the remaining eligible positions, the winners list and the next
stream index; none models the crash on an out-of-range splice index. -/
def drawForPrize (g : Nat → ℚ) (prizeId : String) :
    Nat → Nat → List Participant → List Nat → List Participant →
      Option (List Participant × List Nat × List Participant × Nat)
  | k, 0, participants, eligible, winners =>
    some (participants, eligible, winners, k)
  | k, n + 1, participants, eligible, winners =>
    if eligible.length = 0 then
      some (participants, eligible, winners, k)
    else
      let i : Int := Int.floor (g k * (eligible.length : ℚ))
      if h : 0 ≤ i ∧ i.toNat < eligible.length then
        let j := eligible.get ⟨i.toNat, h.2⟩
        match participants.get? j with
        | none => none
        | some p =>
          let winner : Participant := { p with won := true, prizeId := some prizeId }
          drawForPrize g prizeId (k + 1) n (participants.set j winner)
            (eligible.eraseIdx i.toNat) (winners ++ [winner])
      else
        none

/-- Outer loop of runLaterLottery: the for-of over campaign.prizes. -/
def drawAllPrizes (g : Nat → ℚ) :
    Nat → List Participant → List Nat → List Participant → List Prize →
      Option (List Participant × List Participant)
  | _, participants, _, winners, [] => some (participants, winners)
  | k, participants, eligible, winners, prize :: rest =>
    match drawForPrize g prize.id k prize.quantity.toNat participants eligible
        winners with
    | none => none
    | some (participants, eligible, winners, k) =>
      drawAllPrizes g k participants eligible winners rest

/-- The positions of the participants with won = false, in order: the
eligibleParticipants array of runLaterLottery, as positions into the
campaign's participant list (the array elements alias the list entries). -/
def eligibleIdx (participants : List Participant) : List Nat :=
  (List.range participants.length).filter
    (fun j => !(participants.getD j default).won)

/-- CampaignService.runLaterLottery, drawing its Math.random() values from
the stream g. -/
def runLaterLottery (s : CampaignStore) (campaignId : String) (g : Nat → ℚ) :
    Option (List Participant × CampaignStore) :=
  match mapGet s campaignId with
  | none => some ([], s)
  | some campaign =>
    if campaign.type ≠ .later_lottery then
      some ([], s)
    else
      match drawAllPrizes g 0 campaign.participants
          (eligibleIdx campaign.participants) [] campaign.prizes with
      | none => none
      | some (participants, winners) =>
        some (winners,
          mapSet s campaignId { campaign with participants := participants })

/-- CampaignService.getCampaignStats, restricted to the prize counters. -/
def prizesDistributed (campaign : Campaign) : Int :=
  (campaign.prizes.map Prize.quantity).sum -
    (campaign.prizes.map Prize.remaining).sum

/-- One externally triggered campaign-engine operation, carrying the
ambient data (generated id, wall-clock time, random draws) it consumes. -/
inductive CampaignOp
  | create (id name : String) (type : CampaignType) (description : String)
      (startDate endDate : Int) (prizes : List Prize) (rules : CampaignRules)
      (now : Int)
  | start (id : String) (now : Int)
  | finish (id : String) (now : Int)
  | enter (id : String) (user : XUser) (now : Int) (r1 r2 : ℚ)
  | later (id : String) (g : Nat → ℚ)

/-- Apply one operation to the engine state. -/
def applyOp (s : CampaignStore) : CampaignOp → Option CampaignStore
  | .create id name type description startDate endDate prizes rules now =>
    some (createCampaign s id name type description startDate endDate prizes
      rules now).2
  | .start id now => some (startCampaign s id now).2
  | .finish id now => some (endCampaign s id now).2
  | .enter id user now r1 r2 => (enterCampaign s id user now r1 r2).map Prod.snd
  | .later id g => (runLaterLottery s id g).map Prod.snd

/-- Apply a sequence of operations. -/
def applyOps (s : CampaignStore) : List CampaignOp → Option CampaignStore
  | [] => some s
  | op :: ops => (applyOp s op).bind (fun s2 => applyOps s2 ops)

/-! ## Post scheduler (SchedulerService) -/

/-- Scheduled-post lifecycle status. -/
inductive PostStatus
  | pending
  | posted
  | failed
deriving Repr, DecidableEq, Inhabited

/-- ScheduledPost record (types/index.ts). -/
structure ScheduledPost where
  id : String
  text : String
  scheduledAt : Int
  status : PostStatus
  mediaUrls : Option (List String) := none
  createdAt : Int
deriving Repr, DecidableEq, Inhabited

/-- SchedulerService state: the posts map, the set of post ids with an
armed setTimeout handle, and the running flag. -/
structure SchedulerState where
  scheduledPosts : List (String × ScheduledPost)
  timers : List String
  isRunning : Bool
deriving Repr, DecidableEq

/-- Map.set into the timers map, keyed by post id. -/
def timerAdd (timers : List String) (id : String) : List String :=
  if timers.contains id then timers else timers ++ [id]

/-- SchedulerService.executePost, collapsed to its synchronous effect: the
publish either succeeds (publishOk = true, status posted) or throws
(status failed); either way the timer handle entry is deleted. -/
def executePost (st : SchedulerState) (postId : String) (publishOk : Bool) :
    SchedulerState :=
  match mapGet st.scheduledPosts postId with
  | none => st
  | some post =>
    let post := { post with status := if publishOk then .posted else .failed }
    { st with
        scheduledPosts := mapSet st.scheduledPosts postId post
        timers := st.timers.erase postId }

/-- SchedulerService.setupTimer: a past-due post executes immediately,
otherwise a timer is armed for the delay. -/
def setupTimer (st : SchedulerState) (post : ScheduledPost) (now : Int)
    (publishOk : Bool) : SchedulerState :=
  let delay := post.scheduledAt - now
  if delay ≤ 0 then
    executePost st post.id publishOk
  else
    { st with timers := timerAdd st.timers post.id }

/-- SchedulerService.schedulePost. The generated id and the current time
arrive as parameters; publishOk is the outcome the publish collaborator
would produce if the call chain reaches executePost. -/
def schedulePost (st : SchedulerState) (id text : String) (scheduledAt : Int)
    (mediaUrls : Option (List String)) (now : Int) (publishOk : Bool) :
    ScheduledPost × SchedulerState :=
  let post : ScheduledPost :=
    { id := id
      text := text
      scheduledAt := scheduledAt
      status := .pending
      mediaUrls := mediaUrls
      createdAt := now }
  let st := { st with scheduledPosts := mapSet st.scheduledPosts id post }
  let st :=
    if st.isRunning && decide (scheduledAt > now) then
      setupTimer st post now publishOk
    else
      st
  (post, st)

/-- SchedulerService.getScheduledPosts with a status filter (the filtered
branch returns in map insertion order, unsorted). -/
def getScheduledPostsByStatus (st : SchedulerState) (status : PostStatus) :
    List ScheduledPost :=
  (mapValues st.scheduledPosts).filter (fun p => decide (p.status = status))

/-- The body of the forEach in checkScheduledPosts, for one pending post
of the snapshot. -/
def sweepStep (st : SchedulerState) (post : ScheduledPost) (now : Int)
    (publishOk : String → Bool) : SchedulerState :=
  if post.scheduledAt ≤ now ∧ st.timers.contains post.id = false then
    executePost st post.id (publishOk post.id)
  else if now < post.scheduledAt ∧ st.timers.contains post.id = false then
    setupTimer st post now (publishOk post.id)
  else
    st

/-- One reconciliation sweep of SchedulerService.checkScheduledPosts (the
rescheduling of the next sweep is outside the state model). The pending
snapshot is taken up front, as in the source; each iteration reads the
then-current state. -/
def checkScheduledPosts (st : SchedulerState) (now : Int)
    (publishOk : String → Bool) : SchedulerState :=
  if st.isRunning = false then
    st
  else
    (getScheduledPostsByStatus st .pending).foldl
      (fun st post => sweepStep st post now publishOk) st

/-- A Partial ScheduledPost: the fields present in an updates object.
A present field carrying undefined is modelled by some none for the
optional mediaUrls field. -/
structure ScheduledPostUpdate where
  id : Option String := none
  text : Option String := none
  scheduledAt : Option Int := none
  status : Option PostStatus := none
  mediaUrls : Option (Option (List String)) := none
  createdAt : Option Int := none
deriving Repr, DecidableEq

/-- The object spread of post with updates: every present field of
updates overrides the stored field. -/
def applyUpdate (post : ScheduledPost) (u : ScheduledPostUpdate) :
    ScheduledPost where
  id := u.id.getD post.id
  text := u.text.getD post.text
  scheduledAt := u.scheduledAt.getD post.scheduledAt
  status := u.status.getD post.status
  mediaUrls := u.mediaUrls.getD post.mediaUrls
  createdAt := u.createdAt.getD post.createdAt

/-- SchedulerService.updateScheduledPost. The updated post is stored under
the original map key id; a timer is re-armed only when the updates object
carries a scheduledAt field, the scheduler runs, and the new time is in
the future. -/
def updateScheduledPost (st : SchedulerState) (id : String)
    (updates : ScheduledPostUpdate) (now : Int) (publishOk : Bool) :
    Option ScheduledPost × SchedulerState :=
  match mapGet st.scheduledPosts id with
  | none => (none, st)
  | some post =>
    if post.status ≠ .pending then
      (none, st)
    else
      let st := { st with timers := st.timers.erase id }
      let updatedPost := applyUpdate post updates
      let st :=
        { st with scheduledPosts := mapSet st.scheduledPosts id updatedPost }
      let st :=
        if updates.scheduledAt.isSome && st.isRunning &&
            decide (updatedPost.scheduledAt > now) then
          setupTimer st updatedPost now publishOk
        else
          st
      (some updatedPost, st)

/-! ## Invariant predicates and witness fixtures -/

/-- The prize-inventory invariant of one campaign. -/
def prizeBounds (c : Campaign) : Prop :=
  ∀ p ∈ c.prizes, 0 ≤ p.remaining ∧ p.remaining ≤ p.quantity

/-- At most one participant record per user id. -/
def uniqueEntrants (c : Campaign) : Prop :=
  (c.participants.map Participant.userId).Nodup

/-- A create operation carries only nonnegative prize quantities; every
other operation is unconstrained. -/
def opQuantitiesOk : CampaignOp → Bool
  | .create _ _ _ _ _ _ prizes _ _ => prizes.all (fun p => decide (0 ≤ p.quantity))
  | _ => true

/-- The eligible-position list is duplicate-free and points at not-yet-won
participants. -/
def EligOk (participants : List Participant) (eligible : List Nat) : Prop :=
  eligible.Nodup ∧
    ∀ j ∈ eligible, ∃ p, participants.get? j = some p ∧ p.won = false

/-- Fixture: rules with no special requirements and no win probability. -/
def rulesFix : CampaignRules :=
  { requireFollow := false, requireRetweet := false, requireLike := false }

/-- Fixture: an active instant campaign whose rules set winProbability to
the explicit value 0. -/
def campZeroProb : Campaign :=
  { id := "c1", name := "camp", type := .instant_auto, description := ""
    startDate := 0, endDate := 1000
    prizes := [{ id := "p1", name := "Grand", quantity := 1, remaining := 1 }]
    participants := []
    status := .active
    rules := { rulesFix with winProbability := some 0 }
    createdAt := 0, updatedAt := 0 }

/-- Fixture: a later-lottery campaign with one prize of quantity 1 and one
not-yet-won participant. -/
def campLater : Campaign :=
  { id := "c1", name := "camp", type := .later_lottery, description := ""
    startDate := 0, endDate := 1000
    prizes := [{ id := "p1", name := "Grand", quantity := 1, remaining := 1 }]
    participants :=
      [{ userId := "u1", username := "alice", enteredAt := 5, won := false }]
    status := .ended, rules := rulesFix, createdAt := 0, updatedAt := 0 }

/-- Fixture: the winner record runLaterLottery produces from campLater. -/
def wonAlice : Participant :=
  { userId := "u1", username := "alice", enteredAt := 5, won := true
    prizeId := some "p1" }

/-- Fixture: campLater after its draw has run. -/
def campLaterAfter : Campaign :=
  { campLater with participants := [wonAlice] }

/-- Fixture: an ended instant campaign with two participants. -/
def campEnded : Campaign :=
  { id := "c2", name := "done", type := .instant_web, description := ""
    startDate := 0, endDate := 500
    prizes := [{ id := "p1", name := "Grand", quantity := 2, remaining := 1 }]
    participants :=
      [{ userId := "u1", username := "alice", enteredAt := 5, won := true,
         prizeId := some "p1" },
       { userId := "u2", username := "bob", enteredAt := 6, won := false }]
    status := .ended, rules := rulesFix, createdAt := 0, updatedAt := 0 }

/-- Fixture: a still-active campaign whose date window ended at time
1000. -/
def campPast : Campaign :=
  { id := "c3", name := "late", type := .later_lottery, description := ""
    startDate := 0, endDate := 1000
    prizes := [{ id := "p1", name := "Grand", quantity := 1, remaining := 1 }]
    participants := []
    status := .active, rules := rulesFix, createdAt := 0, updatedAt := 0 }

/-- Fixture: a pending scheduled post. -/
def postFix : ScheduledPost :=
  { id := "s1", text := "hello", scheduledAt := 500, status := .pending
    createdAt := 0 }

/-- Fixture: a scheduler holding postFix, running, no armed timer. -/
def schedFix : SchedulerState :=
  { scheduledPosts := [("s1", postFix)], timers := [], isRunning := true }

/-! ## Helper lemmas about the map model -/

theorem mapGet_mapSet_self {α : Type} (m : List (String × α)) (k : String)
    (v : α) : mapGet (mapSet m k v) k = some v := by
  induction m with
  | nil => simp [mapGet, mapSet]
  | cons kv rest ih =>
    by_cases h : kv.1 == k
    · simp [mapGet, mapSet, h]
    · simp only [mapSet, h, if_neg, Bool.false_eq_true, ite_false]
      simpa [mapGet, List.find?, h] using ih

theorem mem_mapSet {α : Type} {m : List (String × α)} {k : String} {v : α}
    {x : String × α} (hx : x ∈ mapSet m k v) : x ∈ m ∨ x = (k, v) := by
  induction m with
  | nil => exact Or.inr (by simpa [mapSet] using hx)
  | cons kv rest ih =>
    by_cases h : kv.1 == k
    · simp only [mapSet, h, ite_true] at hx
      rcases List.mem_cons.mp hx with h1 | h1
      · exact Or.inr h1
      · exact Or.inl (List.mem_cons_of_mem _ h1)
    · simp only [mapSet, h, Bool.false_eq_true, ite_false] at hx
      rcases List.mem_cons.mp hx with h1 | h1
      · exact Or.inl (by simp [h1])
      · rcases ih h1 with h2 | h2
        · exact Or.inl (List.mem_cons_of_mem _ h2)
        · exact Or.inr h2

theorem mapGet_mem {α : Type} {m : List (String × α)} {k : String} {v : α}
    (h : mapGet m k = some v) : (k, v) ∈ m := by
  unfold mapGet at h
  cases hf : m.find? (fun kv => kv.1 == k) with
  | none => simp [hf] at h
  | some kv =>
    have hkv := List.find?_some hf
    have hmem := List.mem_of_find?_eq_some hf
    simp [hf] at h
    obtain ⟨k1, v1⟩ := kv
    have hk : k1 = k := by simpa using hkv
    have hv : v1 = v := by simpa using h
    rw [← hk, ← hv]
    exact hmem

/-! ## Helper lemmas about the random index arithmetic -/

theorem floorIndex_lt {r : ℚ} {n : ℕ} (h0 : 0 ≤ r) (h1 : r < 1) (hn : 0 < n) :
    0 ≤ Int.floor (r * (n : ℚ)) ∧ (Int.floor (r * (n : ℚ))).toNat < n := by
  have hnn : (0 : ℚ) < (n : ℚ) := by exact_mod_cast hn
  have hge : 0 ≤ Int.floor (r * (n : ℚ)) :=
    Int.floor_nonneg.mpr (mul_nonneg h0 (le_of_lt hnn))
  have hlt : Int.floor (r * (n : ℚ)) < (n : ℤ) := by
    rw [Int.floor_lt]
    exact_mod_cast mul_lt_of_lt_one_left hnn h1
  exact ⟨hge, by omega⟩

theorem mem_availablePrizeIdx {prizes : List Prize} {j : Nat}
    (h : j ∈ availablePrizeIdx prizes) :
    j < prizes.length ∧ 0 < (prizes.getD j default).remaining := by
  simpa [availablePrizeIdx, List.mem_filter, List.mem_range] using h

/-- Shape of runInstantLottery for an in-range prize draw: it never
crashes, never touches the participant list or any other field, and
either leaves the prizes alone or decrements exactly one prize with
positive remaining by one. -/
theorem runInstantLottery_cases (c : Campaign) (r1 r2 : ℚ)
    (hr2 : 0 ≤ r2 ∧ r2 < 1) :
    ∃ res c2, runInstantLottery c r1 r2 = some (res, c2) ∧
      c2.participants = c.participants ∧ c2.status = c.status ∧
      c2.id = c.id ∧ c2.type = c.type ∧ c2.rules = c.rules ∧
      (c2.prizes = c.prizes ∨
        ∃ j, j < c.prizes.length ∧
          0 < (c.prizes.getD j default).remaining ∧
          c2.prizes = c.prizes.set j
            { c.prizes.getD j default with
                remaining := (c.prizes.getD j default).remaining - 1 }) := by
  simp only [runInstantLottery]
  by_cases hav : (availablePrizeIdx c.prizes).length = 0
  · rw [if_pos hav]
    exact ⟨_, _, rfl, rfl, rfl, rfl, rfl, rfl, Or.inl rfl⟩
  · have hn : 0 < (availablePrizeIdx c.prizes).length := Nat.pos_of_ne_zero hav
    have hidx := floorIndex_lt hr2.1 hr2.2 hn
    by_cases hwin :
        r1 * 100 < jsOrDefault c.rules.winProbability 10
    · have hjmem : (availablePrizeIdx c.prizes).get
          ⟨(Int.floor (r2 * ((availablePrizeIdx c.prizes).length : ℚ))).toNat,
            hidx.2⟩ ∈ availablePrizeIdx c.prizes := List.get_mem _ _ _
      obtain ⟨hjlt, hjrem⟩ := mem_availablePrizeIdx hjmem
      rw [if_neg hav, if_pos hwin, dif_pos hidx]
      exact ⟨_, _, rfl, rfl, rfl, rfl, rfl, rfl, Or.inr ⟨_, hjlt, hjrem, rfl⟩⟩
    · rw [if_neg hav, if_neg hwin]
      exact ⟨_, _, rfl, rfl, rfl, rfl, rfl, rfl, Or.inl rfl⟩

/-- Entry into an existing active campaign by a user with no prior record
succeeds, for any wall-clock time and any in-range prize draw. -/
theorem enterCampaign_succeeds (s : CampaignStore) (campaignId : String)
    (c : Campaign) (user : XUser) (now : Int) (r1 r2 : ℚ)
    (hc : mapGet s campaignId = some c) (hst : c.status = .active)
    (hdup : c.participants.any (fun p => p.userId == user.id) = false)
    (hr2 : 0 ≤ r2 ∧ r2 < 1) :
    (enterCampaign s campaignId user now r1 r2).map Prod.fst = some true := by
  obtain ⟨res, c2, hrun, -, -, -, -, -, -⟩ := runInstantLottery_cases c r1 r2 hr2
  simp only [enterCampaign, hc]
  rw [if_neg (by simp [hst])]
  rw [if_neg (by simp [hdup])]
  by_cases hty : c.type = .instant_web ∨ c.type = .instant_auto
  · rw [if_pos hty, hrun]
    rfl
  · rw [if_neg hty]
    rfl

/-- Changing only the campaign dates commutes with the instant draw: the
draw reads none of them. -/
theorem runInstantLottery_setDates (c : Campaign) (sd ed : Int) (r1 r2 : ℚ) :
    runInstantLottery { c with startDate := sd, endDate := ed } r1 r2 =
      (runInstantLottery c r1 r2).map
        (fun rc => (rc.1, { rc.2 with startDate := sd, endDate := ed })) := by
  simp only [runInstantLottery]
  split_ifs <;> rfl

/-- C1 (code_bug): with winProbability explicitly set to 0 and a prize
still available, a draw of Math.random() = 0 (any draw below 0.1) WINS,
because the source expression campaign.rules.winProbability || 10 treats
the set value 0 as falsy, exactly like an unset value, and replaces it by
the default 10. This contradicts the claim that a winProbability of 0
makes every entry lose and that only an unset probability defaults to
10. -/
theorem instant_zero_probability_can_win :
    (runInstantLottery campZeroProb 0 0).map (fun rc => rc.1.won) =
      some true ∧
    (runInstantLottery campZeroProb 0 0).map
      (fun rc => rc.2.prizes.map Prize.remaining) = some [0] ∧
    jsOrDefault (some 0) 10 = jsOrDefault none 10 := by
  norm_num [runInstantLottery, campZeroProb, availablePrizeIdx, jsOrDefault,
    rulesFix, List.range_succ]

/-- C2 (code_bug): one runLaterLottery call on a later-lottery campaign
with one prize (quantity 1, remaining 1) and one eligible participant
marks the participant won with that prize id, yet leaves the prize's
remaining counter at 1, so quantity - remaining = 0 although one
participant holds the prize; the repository's own prizesDistributed
statistic consequently reports 0 distributed prizes. -/
theorem later_lottery_award_keeps_remaining :
    runLaterLottery [("c1", campLater)] "c1" (fun _ => 0) =
      some ([wonAlice], [("c1", campLaterAfter)]) ∧
    campLaterAfter.participants.map Participant.prizeId = [some "p1"] ∧
    campLaterAfter.prizes.map Prize.remaining = [1] ∧
    campLaterAfter.prizes.map Prize.quantity = [1] ∧
    prizesDistributed campLaterAfter = 0 := by
  refine ⟨?_, by decide, by decide, by decide, by decide⟩
  norm_num [runLaterLottery, mapGet, List.find?, campLater, eligibleIdx,
    drawAllPrizes, drawForPrize, mapSet, wonAlice, campLaterAfter, rulesFix,
    List.range_succ]

/-- C3 (counterexample): scheduling a post for time 50 at current time 100
with the scheduler running leaves the post pending and arms no timer:
schedulePost itself initiates no execution, contradicting the claim that
the post leaves pending without waiting for a sweep. -/
theorem schedulePost_past_stays_pending_cex :
    ((schedulePost ⟨[], [], true⟩ "s1" "hi" 50 none 100 true).2 =
      ⟨[("s1", { id := "s1", text := "hi", scheduledAt := 50,
                 status := .pending, mediaUrls := none,
                 createdAt := 100 })],
        [], true⟩) ∧
    (mapGet (schedulePost ⟨[], [], true⟩ "s1" "hi" 50 none 100
        true).2.scheduledPosts "s1").map ScheduledPost.status ≠
      some .posted ∧
    (mapGet (schedulePost ⟨[], [], true⟩ "s1" "hi" 50 none 100
        true).2.scheduledPosts "s1").map ScheduledPost.status ≠
      some .failed := by
  decide

/-- C3 (amended): for a target time at or before now while the scheduler
is running, schedulePost stores the post still pending and arms no timer
(the future-only guard skips setupTimer); the post is executed only by
the next reconciliation sweep, which transitions it to posted or failed
according to the publish outcome. Stated from a fresh running scheduler. -/
theorem schedulePost_past_waits_for_sweep (id text : String)
    (scheduledAt now now2 : Int) (mediaUrls : Option (List String))
    (publishOk : Bool) (pub2 : String → Bool) (hpast : scheduledAt ≤ now)
    (hsweep : scheduledAt ≤ now2) :
    ((schedulePost ⟨[], [], true⟩ id text scheduledAt mediaUrls now
        publishOk).2 =
      ⟨[(id, { id := id, text := text, scheduledAt := scheduledAt,
               status := .pending, mediaUrls := mediaUrls,
               createdAt := now })],
        [], true⟩) ∧
    (mapGet (checkScheduledPosts
        (schedulePost ⟨[], [], true⟩ id text scheduledAt mediaUrls now
          publishOk).2 now2 pub2).scheduledPosts id).map
      ScheduledPost.status =
      some (if pub2 id then .posted else .failed) := by
  have hgt : ¬ (scheduledAt > now) := not_lt.mpr hpast
  have h1 : (schedulePost ⟨[], [], true⟩ id text scheduledAt mediaUrls now
      publishOk).2 =
      ⟨[(id, { id := id, text := text, scheduledAt := scheduledAt,
               status := .pending, mediaUrls := mediaUrls,
               createdAt := now })],
        [], true⟩ := by
    simp [schedulePost, mapSet, hgt]
  refine ⟨h1, ?_⟩
  rw [h1]
  simp [checkScheduledPosts, getScheduledPostsByStatus, mapValues, sweepStep,
    hsweep, executePost, mapGet, mapSet, List.find?]

/-- C3 witness: post scheduled for time 50 at time 100, swept at time
200 with a succeeding publish collaborator. -/
theorem schedulePost_past_waits_for_sweep_witness :
    ((schedulePost ⟨[], [], true⟩ "s1" "hi" 50 none 100 true).2 =
      ⟨[("s1", { id := "s1", text := "hi", scheduledAt := 50,
                 status := .pending, mediaUrls := none,
                 createdAt := 100 })],
        [], true⟩) ∧
    (mapGet (checkScheduledPosts
        (schedulePost ⟨[], [], true⟩ "s1" "hi" 50 none 100
          true).2 200 (fun _ => true)).scheduledPosts "s1").map
      ScheduledPost.status =
      some (if (fun _ : String => true) "s1" then .posted else .failed) :=
  schedulePost_past_waits_for_sweep "s1" "hi" 50 100 200 none true
    (fun _ => true) (by decide) (by decide)

/-- C7: ending an already-ended campaign keeps the status ended, returns a
non-null campaign, and the only field that changes is updatedAt. -/
theorem endCampaign_idempotent_on_ended (s : CampaignStore) (id : String)
    (c : Campaign) (now : Int) (hc : mapGet s id = some c)
    (hended : c.status = .ended) :
    (endCampaign s id now).1 = some { c with updatedAt := now } ∧
    (endCampaign s id now).1.map Campaign.status = some .ended ∧
    mapGet (endCampaign s id now).2 id = some { c with updatedAt := now } := by
  have hrw : ({ c with status := .ended, updatedAt := now } : Campaign) =
      { c with updatedAt := now } := by
    cases c
    simp_all
  simp [endCampaign, hc, hrw, hended, mapGet_mapSet_self]

/-- C7 witness. -/
theorem endCampaign_idempotent_on_ended_witness :
    (endCampaign [("c2", campEnded)] "c2" 777).1 =
      some { campEnded with updatedAt := 777 } ∧
    (endCampaign [("c2", campEnded)] "c2" 777).1.map Campaign.status =
      some .ended ∧
    mapGet (endCampaign [("c2", campEnded)] "c2" 777).2 "c2" =
      some { campEnded with updatedAt := 777 } :=
  endCampaign_idempotent_on_ended [("c2", campEnded)] "c2" campEnded 777
    (by decide) (by decide)

/-- C8: startCampaign sets the status of any stored campaign to active
whatever its prior status was (in particular an ended one is reactivated),
and a user without a prior record can then enter successfully. -/
theorem startCampaign_reactivates (s : CampaignStore) (id : String)
    (c : Campaign) (now now2 : Int) (user : XUser) (r1 r2 : ℚ)
    (hc : mapGet s id = some c)
    (hdup : c.participants.any (fun p => p.userId == user.id) = false)
    (hr2 : 0 ≤ r2 ∧ r2 < 1) :
    (startCampaign s id now).1 =
      some { c with status := .active, updatedAt := now } ∧
    mapGet (startCampaign s id now).2 id =
      some { c with status := .active, updatedAt := now } ∧
    (enterCampaign (startCampaign s id now).2 id user now2 r1 r2).map
      Prod.fst = some true := by
  refine ⟨by simp [startCampaign, hc], by simp [startCampaign, hc, mapGet_mapSet_self], ?_⟩
  apply enterCampaign_succeeds _ _ { c with status := .active, updatedAt := now }
    user now2 r1 r2
  · simp [startCampaign, hc, mapGet_mapSet_self]
  · rfl
  · exact hdup
  · exact hr2

/-- C8 witness: reactivating the ended fixture campaign and entering with
a fresh user. -/
theorem startCampaign_reactivates_witness :
    (startCampaign [("c2", campEnded)] "c2" 900).1 =
      some { campEnded with status := .active, updatedAt := 900 } ∧
    mapGet (startCampaign [("c2", campEnded)] "c2" 900).2 "c2" =
      some { campEnded with status := .active, updatedAt := 900 } ∧
    (enterCampaign (startCampaign [("c2", campEnded)] "c2" 900).2 "c2"
      { id := "u3", username := "carol" } 901 0 0).map Prod.fst = some true :=
  startCampaign_reactivates [("c2", campEnded)] "c2" campEnded 900 901
    { id := "u3", username := "carol" } 0 0 (by decide) (by decide)
    ⟨by decide, by decide⟩

/-- C9: entry consults only the campaign status, never its dates. First,
the boolean outcome of enterCampaign is unchanged when the stored
campaign's startDate and endDate are replaced by arbitrary values.
Second, entry into an active campaign by a fresh user succeeds at EVERY
wall-clock time now, with no hypothesis relating now to the campaign's
date window. Third, the date-window test lives only in
getActiveCampaigns, which filters on status and both dates. -/
theorem enterCampaign_ignores_dates :
    (∀ s id c sd ed user now r1 r2,
      (enterCampaign (mapSet s id { c with startDate := sd, endDate := ed })
          id user now r1 r2).map Prod.fst =
        (enterCampaign (mapSet s id c) id user now r1 r2).map Prod.fst) ∧
    (∀ s id c user now r1 r2, mapGet s id = some c → c.status = .active →
      c.participants.any (fun p => p.userId == user.id) = false →
      0 ≤ r2 → r2 < 1 →
      (enterCampaign s id user now r1 r2).map Prod.fst = some true) ∧
    (∀ s now, getActiveCampaigns s now = (mapValues s).filter (fun c =>
      decide (c.status = .active) && decide (c.startDate ≤ now) &&
        decide (c.endDate ≥ now))) := by
  refine ⟨?_, ?_, fun s now => rfl⟩
  · intro s id c sd ed user now r1 r2
    simp only [enterCampaign, mapGet_mapSet_self]
    by_cases hst : c.status ≠ .active
    · rw [if_pos hst, if_pos hst]
      rfl
    · rw [if_neg hst, if_neg hst]
      by_cases hdup : (c.participants.any fun p => p.userId == user.id) = true
      · rw [if_pos hdup, if_pos hdup]
        rfl
      · rw [if_neg hdup, if_neg hdup]
        by_cases hty : c.type = .instant_web ∨ c.type = .instant_auto
        · rw [if_pos hty, if_pos hty, runInstantLottery_setDates]
          cases runInstantLottery c r1 r2 with
          | none => rfl
          | some rc => rfl
        · rw [if_neg hty, if_neg hty]
          rfl
  · intro s id c user now r1 r2 h1 h2 h3 h4 h5
    exact enterCampaign_succeeds s id c user now r1 r2 h1 h2 h3 ⟨h4, h5⟩

/-- C9 witness: entry at time 999999, far beyond the fixture campaign's
endDate of 1000, still succeeds because its status is active. -/
theorem enterCampaign_ignores_dates_witness :
    (enterCampaign [("c3", campPast)] "c3" { id := "u9", username := "zoe" }
      999999 0 0).map Prod.fst = some true :=
  enterCampaign_ignores_dates.2.1 [("c3", campPast)] "c3" campPast
    { id := "u9", username := "zoe" } 999999 0 0 (by decide) (by decide)
    (by decide) (by decide) (by decide)

/-- C10: updateScheduledPost merges EVERY present field of the updates
object, not only text, time and media. An updates object carrying only a
status moves a pending post directly to that status (posted or failed)
with no publish attempt: the result does not depend on the publish
outcome at all, and the merged post is stored under the original key.
An updates object carrying a new id leaves the post stored under its
original map key while the stored record's id field is the new one. -/
theorem updateScheduledPost_merges_all_fields :
    (∀ st id post status2 now pub pub2,
      mapGet st.scheduledPosts id = some post → post.status = .pending →
      updateScheduledPost st id { status := some status2 } now pub =
        updateScheduledPost st id { status := some status2 } now pub2 ∧
      ∃ p2, (updateScheduledPost st id { status := some status2 } now
          pub).1 = some p2 ∧
        p2.status = status2 ∧ p2.id = post.id ∧ p2.text = post.text ∧
        p2.scheduledAt = post.scheduledAt ∧
        mapGet (updateScheduledPost st id { status := some status2 } now
          pub).2.scheduledPosts id = some p2) ∧
    (∀ st id post newId now pub,
      mapGet st.scheduledPosts id = some post → post.status = .pending →
      ∃ p2, (updateScheduledPost st id { id := some newId } now pub).1 =
          some p2 ∧
        p2.id = newId ∧
        mapGet (updateScheduledPost st id { id := some newId } now
          pub).2.scheduledPosts id = some p2) := by
  constructor
  · intro st id post status2 now pub pub2 hpost hpending
    refine ⟨?_, ?_⟩
    · simp [updateScheduledPost, hpost, hpending, applyUpdate]
    · refine ⟨applyUpdate post { status := some status2 }, ?_, rfl, rfl, rfl,
        rfl, ?_⟩
      · simp [updateScheduledPost, hpost, hpending]
      · simp [updateScheduledPost, hpost, hpending, mapGet_mapSet_self]
  · intro st id post newId now pub hpost hpending
    refine ⟨applyUpdate post { id := some newId }, ?_, rfl, ?_⟩
    · simp [updateScheduledPost, hpost, hpending]
    · simp [updateScheduledPost, hpost, hpending, mapGet_mapSet_self]

/-- C10 witness: moving the pending fixture post straight to posted by
update, and changing its id field while it stays under key s1. -/
theorem updateScheduledPost_merges_all_fields_witness :
    (∃ p2, (updateScheduledPost schedFix "s1" { status := some .posted } 100
        true).1 = some p2 ∧
      p2.status = .posted ∧ p2.id = postFix.id ∧ p2.text = postFix.text ∧
      p2.scheduledAt = postFix.scheduledAt ∧
      mapGet (updateScheduledPost schedFix "s1" { status := some .posted }
        100 true).2.scheduledPosts "s1" = some p2) ∧
    (∃ p2, (updateScheduledPost schedFix "s1" { id := some "zzz" } 100
        true).1 = some p2 ∧
      p2.id = "zzz" ∧
      mapGet (updateScheduledPost schedFix "s1" { id := some "zzz" } 100
        true).2.scheduledPosts "s1" = some p2) :=
  ⟨(updateScheduledPost_merges_all_fields.1 schedFix "s1" postFix .posted 100
      true true (by decide) (by decide)).2,
    updateScheduledPost_merges_all_fields.2 schedFix "s1" postFix "zzz" 100
      true (by decide) (by decide)⟩

/-! ## Preservation lemmas for the store invariants -/

/-- A successful instant draw keeps every non-prize field and preserves
the prize bounds: it decrements only a prize with positive remaining. -/
theorem runInstantLottery_some_spec {c c2 : Campaign} {r1 r2 : ℚ}
    {res : InstantResult}
    (h : runInstantLottery c r1 r2 = some (res, c2)) :
    c2.participants = c.participants ∧ c2.status = c.status ∧
    c2.type = c.type ∧ (prizeBounds c → prizeBounds c2) := by
  simp only [runInstantLottery] at h
  split_ifs at h with hav hwin hcond
  case _ =>
    simp only [Option.some.injEq, Prod.mk.injEq] at h
    obtain ⟨-, rfl⟩ := h
    exact ⟨rfl, rfl, rfl, fun hb => hb⟩
  case _ =>
    simp only [Option.some.injEq, Prod.mk.injEq] at h
    obtain ⟨-, rfl⟩ := h
    refine ⟨rfl, rfl, rfl, fun hb p hp => ?_⟩
    have hjmem : (availablePrizeIdx c.prizes).get
        ⟨(Int.floor (r2 * ((availablePrizeIdx c.prizes).length : ℚ))).toNat,
          hcond.2⟩ ∈ availablePrizeIdx c.prizes := List.get_mem _ _ _
    obtain ⟨hjlt, hjrem⟩ := mem_availablePrizeIdx hjmem
    rcases List.mem_or_eq_of_mem_set hp with hmem | rfl
    · exact hb _ hmem
    · have hmemD : c.prizes.getD ((availablePrizeIdx c.prizes).get
          ⟨(Int.floor (r2 * ((availablePrizeIdx c.prizes).length : ℚ))).toNat,
            hcond.2⟩) default ∈ c.prizes := by
        rw [List.getD_eq_getElem _ _ hjlt]
        exact List.getElem_mem hjlt
      have hbj := hb _ hmemD
      constructor <;> (dsimp only; omega)
  case _ =>
    simp only [Option.some.injEq, Prod.mk.injEq] at h
    obtain ⟨-, rfl⟩ := h
    exact ⟨rfl, rfl, rfl, fun hb => hb⟩

/-- Each engine operation preserves the prize bounds of every stored
campaign, assuming created prize quantities are nonnegative. -/
theorem applyOp_prizeBounds {s s2 : CampaignStore} {op : CampaignOp}
    (hs : ∀ kc ∈ s, prizeBounds kc.2) (hop : opQuantitiesOk op = true)
    (h : applyOp s op = some s2) : ∀ kc ∈ s2, prizeBounds kc.2 := by
  cases op with
  | create id name type description startDate endDate prizes rules now =>
    simp only [applyOp, createCampaign, Option.some.injEq] at h
    subst h
    intro kc hkc
    rcases mem_mapSet hkc with hmem | rfl
    · exact hs _ hmem
    · intro p hp
      simp only at hp
      obtain ⟨q, hq, rfl⟩ := List.mem_map.mp hp
      have hq0 : 0 ≤ q.quantity := by
        simp only [opQuantitiesOk, List.all_eq_true, decide_eq_true_eq] at hop
        exact hop q hq
      exact ⟨hq0, le_refl _⟩
  | start id now =>
    simp only [applyOp] at h
    cases hm : mapGet s id with
    | none =>
      simp only [startCampaign, hm, Option.some.injEq] at h
      subst h
      exact hs
    | some c =>
      simp only [startCampaign, hm, Option.some.injEq] at h
      subst h
      intro kc hkc
      rcases mem_mapSet hkc with hmem | rfl
      · exact hs _ hmem
      · exact fun p hp => hs _ (mapGet_mem hm) p hp
  | finish id now =>
    simp only [applyOp] at h
    cases hm : mapGet s id with
    | none =>
      simp only [endCampaign, hm, Option.some.injEq] at h
      subst h
      exact hs
    | some c =>
      simp only [endCampaign, hm, Option.some.injEq] at h
      subst h
      intro kc hkc
      rcases mem_mapSet hkc with hmem | rfl
      · exact hs _ hmem
      · exact fun p hp => hs _ (mapGet_mem hm) p hp
  | enter id user now r1 r2 =>
    simp only [applyOp] at h
    cases hm : mapGet s id with
    | none =>
      simp only [enterCampaign, hm, Option.map_some', Option.some.injEq] at h
      subst h
      exact hs
    | some c =>
      simp only [enterCampaign, hm] at h
      split_ifs at h with hst hdup hty
      · simp only [Option.map_some', Option.some.injEq] at h
        subst h
        exact hs
      · simp only [Option.map_some', Option.some.injEq] at h
        subst h
        exact hs
      · cases hrun : runInstantLottery c r1 r2 with
        | none =>
          rw [hrun] at h
          simp at h
        | some rc =>
          obtain ⟨res, c2⟩ := rc
          rw [hrun] at h
          simp only [Option.map_some', Option.some.injEq] at h
          subst h
          intro kc hkc
          rcases mem_mapSet hkc with hmem | rfl
          · exact hs _ hmem
          · have hcb := (runInstantLottery_some_spec hrun).2.2.2
              (hs _ (mapGet_mem hm))
            exact fun p hp => hcb p hp
      · simp only [Option.map_some', Option.some.injEq] at h
        subst h
        intro kc hkc
        rcases mem_mapSet hkc with hmem | rfl
        · exact hs _ hmem
        · exact fun p hp => hs _ (mapGet_mem hm) p hp
  | later id g =>
    simp only [applyOp] at h
    cases hm : mapGet s id with
    | none =>
      simp only [runLaterLottery, hm, Option.map_some', Option.some.injEq] at h
      subst h
      exact hs
    | some c =>
      simp only [runLaterLottery, hm] at h
      split_ifs at h with hty
      · simp only [Option.map_some', Option.some.injEq] at h
        subst h
        exact hs
      · cases hdraw : drawAllPrizes g 0 c.participants
            (eligibleIdx c.participants) [] c.prizes with
        | none =>
          rw [hdraw] at h
          simp at h
        | some pw =>
          obtain ⟨parts2, winners⟩ := pw
          rw [hdraw] at h
          simp only [Option.map_some', Option.some.injEq] at h
          subst h
          intro kc hkc
          rcases mem_mapSet hkc with hmem | rfl
          · exact hs _ hmem
          · exact fun p hp => hs _ (mapGet_mem hm) p hp

/-- The prize bounds hold in every store reachable by a sequence of
operations from a store where they hold. -/
theorem applyOps_prizeBounds :
    ∀ (ops : List CampaignOp) (s s2 : CampaignStore),
      (∀ op ∈ ops, opQuantitiesOk op = true) →
      (∀ kc ∈ s, prizeBounds kc.2) → applyOps s ops = some s2 →
      ∀ kc ∈ s2, prizeBounds kc.2 := by
  intro ops
  induction ops with
  | nil =>
    intro s s2 _ hs h
    simp only [applyOps, Option.some.injEq] at h
    subst h
    exact hs
  | cons op ops ih =>
    intro s s2 hq hs h
    simp only [applyOps] at h
    cases hop : applyOp s op with
    | none => rw [hop] at h; simp at h
    | some s1 =>
      rw [hop] at h
      simp only [Option.some_bind] at h
      exact ih s1 s2 (fun o ho => hq o (List.mem_cons_of_mem _ ho))
        (applyOp_prizeBounds hs (hq op (List.mem_cons_self op ops)) hop) h

/-- C4: createCampaign initializes every prize's remaining to its
quantity, and along any operation sequence from the empty store (with
nonnegative created quantities) every stored prize satisfies
0 ≤ remaining ≤ quantity. -/
theorem prize_remaining_bounds :
    (∀ s id name type description startDate endDate prizes rules now,
      ∀ p ∈ (createCampaign s id name type description startDate endDate
          prizes rules now).1.prizes,
        p.remaining = p.quantity) ∧
    (∀ (ops : List CampaignOp) (s : CampaignStore),
      (∀ op ∈ ops, opQuantitiesOk op = true) →
      applyOps [] ops = some s →
      ∀ kc ∈ s, ∀ p ∈ kc.2.prizes,
        0 ≤ p.remaining ∧ p.remaining ≤ p.quantity) := by
  constructor
  · intro s id name type description startDate endDate prizes rules now p hp
    simp only [createCampaign] at hp
    obtain ⟨q, hq, rfl⟩ := List.mem_map.mp hp
    rfl
  · intro ops s hq h
    exact applyOps_prizeBounds ops [] s hq (fun kc hkc => absurd hkc
      (List.not_mem_nil kc)) h

/-- C4 witness: create a campaign (prize quantity 1 handed in with a
stale remaining of 0, reinitialized to 1) and start it. -/
theorem prize_remaining_bounds_witness :
    ∀ kc ∈ ([("c1", { id := "c1", name := "n", type := .instant_auto,
                      description := "", startDate := 0, endDate := 10,
                      prizes := [{ id := "p1", name := "g", quantity := 1,
                                   remaining := 1 }],
                      participants := [], status := .active,
                      rules := rulesFix, createdAt := 0,
                      updatedAt := 1 })] : CampaignStore),
      ∀ p ∈ kc.2.prizes, 0 ≤ p.remaining ∧ p.remaining ≤ p.quantity :=
  prize_remaining_bounds.2
    [.create "c1" "n" .instant_auto "" 0 10
        [{ id := "p1", name := "g", quantity := 1, remaining := 0 }]
        rulesFix 0,
      .start "c1" 1]
    _ (by decide) (by decide)

/-! ## Participant-identity preservation of the later draw -/

/-- Writing back the value already stored at a position is a no-op. -/
theorem set_get_self {α : Type} :
    ∀ (l : List α) (n : Nat) (a : α), l.get? n = some a → l.set n a = l := by
  intro l
  induction l with
  | nil => intro n a h; simp at h
  | cons x xs ih =>
    intro n a h
    cases n with
    | zero =>
      simp only [List.get?] at h
      injection h with h
      subst h
      rfl
    | succ m =>
      simp only [List.get?] at h
      simp [List.set, ih m a h]

/-- The inner draw loop never changes any participant's userId. -/
theorem drawForPrize_map_userId (g : Nat → ℚ) (pid : String) :
    ∀ (n k : Nat) (parts : List Participant) (elig : List Nat)
      (ws parts2 : List Participant) (elig2 : List Nat)
      (ws2 : List Participant) (k2 : Nat),
      drawForPrize g pid k n parts elig ws = some (parts2, elig2, ws2, k2) →
      parts2.map Participant.userId = parts.map Participant.userId := by
  intro n
  induction n with
  | zero =>
    intro k parts elig ws parts2 elig2 ws2 k2 h
    simp only [drawForPrize, Option.some.injEq, Prod.mk.injEq] at h
    rw [← h.1]
  | succ m ih =>
    intro k parts elig ws parts2 elig2 ws2 k2 h
    simp only [drawForPrize] at h
    split_ifs at h with hlen hcond
    · simp only [Option.some.injEq, Prod.mk.injEq] at h
      rw [← h.1]
    · cases hj : parts.get? (elig.get
          ⟨(Int.floor (g k * (elig.length : ℚ))).toNat, hcond.2⟩) with
      | none => rw [hj] at h; simp at h
      | some p =>
        rw [hj] at h
        have hrec := ih (k + 1) _ _ _ _ _ _ _ h
        rw [hrec, List.map_set]
        apply set_get_self
        rw [List.get?_map, hj]
        rfl

/-- The outer draw loop never changes any participant's userId. -/
theorem drawAllPrizes_map_userId (g : Nat → ℚ) :
    ∀ (prizes : List Prize) (k : Nat) (parts : List Participant)
      (elig : List Nat) (ws parts2 ws2 : List Participant),
      drawAllPrizes g k parts elig ws prizes = some (parts2, ws2) →
      parts2.map Participant.userId = parts.map Participant.userId := by
  intro prizes
  induction prizes with
  | nil =>
    intro k parts elig ws parts2 ws2 h
    simp only [drawAllPrizes, Option.some.injEq, Prod.mk.injEq] at h
    rw [← h.1]
  | cons prize rest ih =>
    intro k parts elig ws parts2 ws2 h
    simp only [drawAllPrizes] at h
    cases hd : drawForPrize g prize.id k prize.quantity.toNat parts elig
        ws with
    | none => rw [hd] at h; simp at h
    | some q =>
      obtain ⟨parts1, elig1, ws1, k1⟩ := q
      rw [hd] at h
      rw [ih k1 parts1 elig1 ws1 parts2 ws2 h,
        drawForPrize_map_userId g prize.id _ _ _ _ _ _ _ _ _ hd]

/-- Each engine operation preserves per-campaign uniqueness of
participant user ids. -/
theorem applyOp_uniqueEntrants {s s2 : CampaignStore} {op : CampaignOp}
    (hs : ∀ kc ∈ s, uniqueEntrants kc.2)
    (h : applyOp s op = some s2) : ∀ kc ∈ s2, uniqueEntrants kc.2 := by
  cases op with
  | create id name type description startDate endDate prizes rules now =>
    simp only [applyOp, createCampaign, Option.some.injEq] at h
    subst h
    intro kc hkc
    rcases mem_mapSet hkc with hmem | rfl
    · exact hs _ hmem
    · simp [uniqueEntrants]
  | start id now =>
    simp only [applyOp] at h
    cases hm : mapGet s id with
    | none =>
      simp only [startCampaign, hm, Option.some.injEq] at h
      subst h
      exact hs
    | some c =>
      simp only [startCampaign, hm, Option.some.injEq] at h
      subst h
      intro kc hkc
      rcases mem_mapSet hkc with hmem | rfl
      · exact hs _ hmem
      · simpa [uniqueEntrants] using hs _ (mapGet_mem hm)
  | finish id now =>
    simp only [applyOp] at h
    cases hm : mapGet s id with
    | none =>
      simp only [endCampaign, hm, Option.some.injEq] at h
      subst h
      exact hs
    | some c =>
      simp only [endCampaign, hm, Option.some.injEq] at h
      subst h
      intro kc hkc
      rcases mem_mapSet hkc with hmem | rfl
      · exact hs _ hmem
      · simpa [uniqueEntrants] using hs _ (mapGet_mem hm)
  | enter id user now r1 r2 =>
    simp only [applyOp] at h
    cases hm : mapGet s id with
    | none =>
      simp only [enterCampaign, hm, Option.map_some', Option.some.injEq] at h
      subst h
      exact hs
    | some c =>
      simp only [enterCampaign, hm] at h
      split_ifs at h with hst hdup hty
      · simp only [Option.map_some', Option.some.injEq] at h
        subst h
        exact hs
      · simp only [Option.map_some', Option.some.injEq] at h
        subst h
        exact hs
      · cases hrun : runInstantLottery c r1 r2 with
        | none =>
          rw [hrun] at h
          simp at h
        | some rc =>
          obtain ⟨res, c2⟩ := rc
          rw [hrun] at h
          simp only [Option.map_some', Option.some.injEq] at h
          subst h
          intro kc hkc
          rcases mem_mapSet hkc with hmem | rfl
          · exact hs _ hmem
          · have hcu : uniqueEntrants c := hs _ (mapGet_mem hm)
            have hparts := (runInstantLottery_some_spec hrun).1
            simp only [uniqueEntrants] at hcu ⊢
            rw [List.map_append, hparts]
            rw [List.nodup_append]
            refine ⟨hcu, by simp, ?_⟩
            intro a ha hmem1
            simp only [List.mem_map] at ha
            obtain ⟨q, hq, rfl⟩ := ha
            simp only [Bool.not_eq_true, List.any_eq_false] at hdup
            have hne := hdup q hq
            simp only [List.mem_map, List.mem_singleton] at hmem1
            obtain ⟨w, hw, huid⟩ := hmem1
            have hwid : w.userId = user.id := by
              subst hw
              split <;> rfl
            rw [hwid] at huid
            rw [← huid] at hne
            simp at hne
      · simp only [Option.map_some', Option.some.injEq] at h
        subst h
        intro kc hkc
        rcases mem_mapSet hkc with hmem | rfl
        · exact hs _ hmem
        · have hcu : uniqueEntrants c := hs _ (mapGet_mem hm)
          simp only [uniqueEntrants] at hcu ⊢
          rw [List.map_append, List.nodup_append]
          refine ⟨hcu, by simp, ?_⟩
          intro a ha hmem1
          simp only [List.mem_map] at ha
          obtain ⟨q, hq, rfl⟩ := ha
          simp only [Bool.not_eq_true, List.any_eq_false] at hdup
          have hne := hdup q hq
          simp only [List.mem_map, List.mem_singleton] at hmem1
          obtain ⟨w, hw, huid⟩ := hmem1
          subst hw
          rw [← huid] at hne
          simp at hne
  | later id g =>
    simp only [applyOp] at h
    cases hm : mapGet s id with
    | none =>
      simp only [runLaterLottery, hm, Option.map_some', Option.some.injEq] at h
      subst h
      exact hs
    | some c =>
      simp only [runLaterLottery, hm] at h
      split_ifs at h with hty
      · simp only [Option.map_some', Option.some.injEq] at h
        subst h
        exact hs
      · cases hdraw : drawAllPrizes g 0 c.participants
            (eligibleIdx c.participants) [] c.prizes with
        | none =>
          rw [hdraw] at h
          simp at h
        | some pw =>
          obtain ⟨parts2, winners⟩ := pw
          rw [hdraw] at h
          simp only [Option.map_some', Option.some.injEq] at h
          subst h
          intro kc hkc
          rcases mem_mapSet hkc with hmem | rfl
          · exact hs _ hmem
          · have hcu : uniqueEntrants c := hs _ (mapGet_mem hm)
            simp only [uniqueEntrants] at hcu ⊢
            rw [drawAllPrizes_map_userId g c.prizes 0 c.participants
              (eligibleIdx c.participants) [] parts2 winners hdraw]
            exact hcu

/-- User-id uniqueness holds in every store reachable from one where it
holds. -/
theorem applyOps_uniqueEntrants :
    ∀ (ops : List CampaignOp) (s s2 : CampaignStore),
      (∀ kc ∈ s, uniqueEntrants kc.2) → applyOps s ops = some s2 →
      ∀ kc ∈ s2, uniqueEntrants kc.2 := by
  intro ops
  induction ops with
  | nil =>
    intro s s2 hs h
    simp only [applyOps, Option.some.injEq] at h
    subst h
    exact hs
  | cons op ops ih =>
    intro s s2 hs h
    simp only [applyOps] at h
    cases hop : applyOp s op with
    | none => rw [hop] at h; simp at h
    | some s1 =>
      rw [hop] at h
      simp only [Option.some_bind] at h
      exact ih s1 s2 (applyOp_uniqueEntrants hs hop) h

/-- C6: every precondition violation of enterCampaign (unknown campaign,
non-active status, duplicate user) returns false and leaves the store
untouched, and consequently every reachable store has at most one
participant record per user id in each campaign. -/
theorem enterCampaign_guards_and_unique :
    (∀ s id user now r1 r2, mapGet s id = none →
      enterCampaign s id user now r1 r2 = some (false, s)) ∧
    (∀ s id c user now r1 r2, mapGet s id = some c → c.status ≠ .active →
      enterCampaign s id user now r1 r2 = some (false, s)) ∧
    (∀ s id c user now r1 r2, mapGet s id = some c →
      (c.participants.any fun p => p.userId == user.id) = true →
      enterCampaign s id user now r1 r2 = some (false, s)) ∧
    (∀ (ops : List CampaignOp) (s : CampaignStore), applyOps [] ops = some s →
      ∀ kc ∈ s, (kc.2.participants.map Participant.userId).Nodup) := by
  refine ⟨?_, ?_, ?_, ?_⟩
  · intro s id user now r1 r2 hm
    simp [enterCampaign, hm]
  · intro s id c user now r1 r2 hm hst
    simp only [enterCampaign, hm]
    rw [if_pos hst]
  · intro s id c user now r1 r2 hm hdup
    simp only [enterCampaign, hm]
    by_cases hst : c.status ≠ .active
    · rw [if_pos hst]
    · rw [if_neg hst, if_pos hdup]
  · intro ops s h
    exact applyOps_uniqueEntrants ops [] s (fun kc hkc => absurd hkc
      (List.not_mem_nil kc)) h

/-- C6 witness: a duplicate entry attempt is rejected with the store
unchanged, and the store reached by create, start, one entry and one
rejected duplicate entry has duplicate-free user ids. -/
theorem enterCampaign_guards_and_unique_witness :
    enterCampaign [("c2", campEnded)] "c2" { id := "u1", username := "alice" }
      5 0 0 = some (false, [("c2", campEnded)]) ∧
    (∀ kc ∈ ([("c1", { id := "c1", name := "n", type := .later_lottery,
                       description := "", startDate := 0, endDate := 10,
                       prizes := [{ id := "p1", name := "g", quantity := 1,
                                    remaining := 1 }],
                       participants := [{ userId := "u1",
                                          username := "alice",
                                          enteredAt := 2, won := false }],
                       status := .active, rules := rulesFix, createdAt := 0,
                       updatedAt := 1 })] : CampaignStore),
      (kc.2.participants.map Participant.userId).Nodup) :=
  ⟨enterCampaign_guards_and_unique.2.2.1 [("c2", campEnded)] "c2" campEnded
      { id := "u1", username := "alice" } 5 0 0 (by decide) (by decide),
    enterCampaign_guards_and_unique.2.2.2
      [.create "c1" "n" .later_lottery "" 0 10
          [{ id := "p1", name := "g", quantity := 1, remaining := 0 }]
          rulesFix 0,
        .start "c1" 1,
        .enter "c1" { id := "u1", username := "alice" } 2 0 0,
        .enter "c1" { id := "u1", username := "alice" } 3 0 0]
      _ (by decide)⟩

/-! ## Quantitative specification of the later draw -/

/-- The element removed by eraseIdx does not reappear when the list has no
duplicates. -/
theorem not_mem_eraseIdx_self {l : List Nat} {i : Nat} (hi : i < l.length)
    (hnd : l.Nodup) : l[i] ∉ l.eraseIdx i := by
  intro hmem
  rw [List.eraseIdx_eq_take_drop_succ] at hmem
  rcases List.mem_append.mp hmem with hmem | hmem
  · rw [List.mem_iff_getElem] at hmem
    obtain ⟨n, hn, hget⟩ := hmem
    have hn2 : n < i := by
      have hn3 := hn
      rw [List.length_take] at hn3
      omega
    rw [List.getElem_take] at hget
    have := (hnd.getElem_inj_iff).mp hget
    omega
  · rw [List.mem_iff_getElem] at hmem
    obtain ⟨n, hn, hget⟩ := hmem
    have hn2 : i + 1 + n < l.length := by
      have hn3 := hn
      rw [List.length_drop] at hn3
      omega
    rw [List.getElem_drop] at hget
    have := (hnd.getElem_inj_iff).mp hget
    omega

/-- Full specification of the inner draw loop: with in-range random
values and a well-formed eligible pool it never crashes, draws at most n
winners without replacement, touches only eligible positions, and flips
exactly one won flag per drawn winner. -/
theorem drawForPrize_spec (g : Nat → ℚ) (hg : ∀ m, 0 ≤ g m ∧ g m < 1)
    (pid : String) :
    ∀ (n k : Nat) (parts : List Participant) (elig : List Nat)
      (ws : List Participant),
      EligOk parts elig →
      ∃ parts2 elig2 ds k2,
        drawForPrize g pid k n parts elig ws =
          some (parts2, elig2, ws ++ ds, k2) ∧
        EligOk parts2 elig2 ∧
        (∀ j, j ∈ elig2 → j ∈ elig) ∧
        (∀ j, j ∉ elig → parts2.get? j = parts.get? j) ∧
        ds.length + elig2.length = elig.length ∧
        ds.length ≤ n ∧
        parts2.countP (fun p => p.won) =
          parts.countP (fun p => p.won) + ds.length := by
  intro n
  induction n with
  | zero =>
    intro k parts elig ws hE
    exact ⟨parts, elig, [], k, by simp [drawForPrize], hE, fun j hj => hj,
      fun j _ => rfl, by simp, by simp, by simp⟩
  | succ m ih =>
    intro k parts elig ws hE
    by_cases hlen : elig.length = 0
    · exact ⟨parts, elig, [], k, by simp [drawForPrize, hlen], hE,
        fun j hj => hj, fun j _ => rfl, by simp, by simp, by simp⟩
    · have hpos : 0 < elig.length := Nat.pos_of_ne_zero hlen
      have hidx := floorIndex_lt (hg k).1 (hg k).2 hpos
      have hjmem : elig.get ⟨(Int.floor (g k * (elig.length : ℚ))).toNat,
          hidx.2⟩ ∈ elig := List.get_mem _ _ _
      obtain ⟨p, hp, hpw⟩ := hE.2 _ hjmem
      have hj_not : elig.get ⟨(Int.floor (g k * (elig.length : ℚ))).toNat,
          hidx.2⟩ ∉ elig.eraseIdx
            (Int.floor (g k * (elig.length : ℚ))).toNat :=
        not_mem_eraseIdx_self hidx.2 hE.1
      have heval : drawForPrize g pid k (m + 1) parts elig ws =
          drawForPrize g pid (k + 1) m
            (parts.set (elig.get
              ⟨(Int.floor (g k * (elig.length : ℚ))).toNat, hidx.2⟩)
              { p with won := true, prizeId := some pid })
            (elig.eraseIdx (Int.floor (g k * (elig.length : ℚ))).toNat)
            (ws ++ [{ p with won := true, prizeId := some pid }]) := by
        simp only [drawForPrize]
        rw [if_neg hlen, dif_pos hidx, hp]
      have hE2 : EligOk (parts.set (elig.get
            ⟨(Int.floor (g k * (elig.length : ℚ))).toNat, hidx.2⟩)
            { p with won := true, prizeId := some pid })
          (elig.eraseIdx (Int.floor (g k * (elig.length : ℚ))).toNat) := by
        refine ⟨hE.1.eraseIdx _, ?_⟩
        intro j hj
        have hjelig : j ∈ elig := List.eraseIdx_subset _ _ hj
        obtain ⟨q, hq, hqw⟩ := hE.2 j hjelig
        have hne : elig.get ⟨(Int.floor (g k * (elig.length : ℚ))).toNat,
            hidx.2⟩ ≠ j := fun heq => hj_not (heq ▸ hj)
        refine ⟨q, ?_, hqw⟩
        rw [List.get?_set_ne _ _ hne]
        exact hq
      obtain ⟨parts2, elig2, ds, k2, heq, hE3, hsub, hun, hlen2, hdn, hcnt⟩ :=
        ih (k + 1) _ _ (ws ++ [{ p with won := true, prizeId := some pid }])
          hE2
      have hjlt : (elig.get ⟨(Int.floor (g k * (elig.length : ℚ))).toNat,
          hidx.2⟩) < parts.length := by
        rw [List.get?_eq_some] at hp
        exact hp.1
      refine ⟨parts2, elig2,
        { p with won := true, prizeId := some pid } :: ds, k2, ?_, hE3, ?_,
        ?_, ?_, ?_, ?_⟩
      · rw [heval, heq]
        simp
      · intro j hj
        exact List.eraseIdx_subset _ _ (hsub j hj)
      · intro j hj
        have hne : elig.get ⟨(Int.floor (g k * (elig.length : ℚ))).toNat,
            hidx.2⟩ ≠ j := fun heq => hj (heq ▸ hjmem)
        rw [hun j (fun hmem => hj (List.eraseIdx_subset _ _ hmem)),
          List.get?_set_ne _ _ hne]
      · have hlen3 : (elig.eraseIdx
            (Int.floor (g k * (elig.length : ℚ))).toNat).length =
            elig.length - 1 := by
          rw [List.length_eraseIdx]
          simp [hidx.2]
        rw [hlen3] at hlen2
        simp only [List.length_cons]
        omega
      · simp only [List.length_cons]
        omega
      · have hgetj : parts[(elig.get
            ⟨(Int.floor (g k * (elig.length : ℚ))).toNat, hidx.2⟩)] = p := by
          rw [List.get?_eq_getElem?, List.getElem?_eq_getElem hjlt] at hp
          injection hp
        have hset := List.countP_set (fun q => q.won) parts
          (elig.get ⟨(Int.floor (g k * (elig.length : ℚ))).toNat, hidx.2⟩)
          { p with won := true, prizeId := some pid } hjlt
        rw [hgetj, hpw] at hset
        simp at hset
        rw [hcnt]
        simp only [List.get_eq_getElem]
        rw [hset]
        simp only [List.length_cons]
        omega

/-- Full specification of the outer draw loop over the prize list. -/
theorem drawAllPrizes_spec (g : Nat → ℚ) (hg : ∀ m, 0 ≤ g m ∧ g m < 1) :
    ∀ (prizes : List Prize) (k : Nat) (parts : List Participant)
      (elig : List Nat) (ws : List Participant),
      EligOk parts elig →
      ∃ parts2 ds,
        drawAllPrizes g k parts elig ws prizes = some (parts2, ws ++ ds) ∧
        (∀ j, j ∉ elig → parts2.get? j = parts.get? j) ∧
        ds.length ≤ (prizes.map (fun p => p.quantity.toNat)).sum ∧
        ds.length ≤ elig.length ∧
        parts2.countP (fun p => p.won) =
          parts.countP (fun p => p.won) + ds.length := by
  intro prizes
  induction prizes with
  | nil =>
    intro k parts elig ws hE
    exact ⟨parts, [], by simp [drawAllPrizes], fun j _ => rfl, by simp,
      by simp, by simp⟩
  | cons prize rest ih =>
    intro k parts elig ws hE
    obtain ⟨parts1, elig1, ds1, k1, heq1, hE1, hsub1, hun1, hlen1, hdn1,
      hcnt1⟩ := drawForPrize_spec g hg prize.id prize.quantity.toNat k parts
        elig ws hE
    obtain ⟨parts2, ds2, heq2, hun2, hsum2, hle2, hcnt2⟩ :=
      ih k1 parts1 elig1 (ws ++ ds1) hE1
    refine ⟨parts2, ds1 ++ ds2, ?_, ?_, ?_, ?_, ?_⟩
    · simp only [drawAllPrizes, heq1, heq2]
      rw [List.append_assoc]
    · intro j hj
      rw [hun2 j (fun hmem => hj (hsub1 j hmem)), hun1 j hj]
    · simp only [List.length_append, List.map_cons, List.sum_cons]
      omega
    · simp only [List.length_append]
      omega
    · rw [hcnt2, hcnt1]
      simp only [List.length_append]
      omega

/-- The initial eligible pool of runLaterLottery is well formed. -/
theorem eligOk_eligibleIdx (parts : List Participant) :
    EligOk parts (eligibleIdx parts) := by
  refine ⟨(List.nodup_range _).filter _, ?_⟩
  intro j hj
  simp only [eligibleIdx, List.mem_filter, List.mem_range,
    Bool.not_eq_true'] at hj
  obtain ⟨hlt, hw⟩ := hj
  refine ⟨parts.getD j default, ?_, hw⟩
  rw [List.get?_eq_getElem?, List.getElem?_eq_getElem hlt,
    List.getD_eq_getElem _ _ hlt]

/-- The eligible pool has exactly as many positions as there are
not-yet-won participants. -/
theorem length_eligibleIdx :
    ∀ parts : List Participant,
      (eligibleIdx parts).length =
        (parts.filter (fun p => !p.won)).length := by
  intro parts
  induction parts using List.reverseRecOn with
  | nil => rfl
  | append_singleton l a ih =>
    simp only [eligibleIdx] at ih ⊢
    rw [List.length_append, List.length_singleton, List.range_succ,
      List.filter_append, List.filter_append, List.length_append,
      List.length_append]
    have hcong : ((List.range l.length).filter
        (fun j => !((l ++ [a]).getD j default).won)) =
        ((List.range l.length).filter (fun j => !(l.getD j default).won)) := by
      apply List.filter_congr
      intro j hj
      rw [List.mem_range] at hj
      rw [List.getD_append _ _ _ _ hj]
    rw [hcong, ih]
    have hlast : (l ++ [a]).getD l.length default = a := by
      rw [List.getD_append_right _ _ _ _ (le_refl _)]
      simp
    by_cases haw : a.won <;> simp [List.filter, hlast, haw]

/-- C5: one runLaterLottery call on a later-lottery campaign (with
in-range random draws) returns winners bounded by the total prize
quantity and by the eligible pool size, marks exactly that many
previously-unwon participants as won, and leaves every already-won
participant record untouched (so nobody wins twice, even across repeated
invocations); a call on a campaign of any other type variant returns an
empty list and leaves the store unchanged. -/
theorem runLaterLottery_bounds :
    (∀ s cid g c, mapGet s cid = some c → c.type ≠ .later_lottery →
      runLaterLottery s cid g = some ([], s)) ∧
    (∀ s cid g c, mapGet s cid = some c → c.type = .later_lottery →
      (∀ m, 0 ≤ g m ∧ g m < 1) →
      ∃ winners parts2,
        runLaterLottery s cid g =
          some (winners, mapSet s cid { c with participants := parts2 }) ∧
        winners.length ≤ (c.prizes.map (fun p => p.quantity.toNat)).sum ∧
        winners.length ≤
          (c.participants.filter (fun p => !p.won)).length ∧
        parts2.countP (fun p => p.won) =
          c.participants.countP (fun p => p.won) + winners.length ∧
        (∀ j p, c.participants.get? j = some p → p.won = true →
          parts2.get? j = some p)) := by
  constructor
  · intro s cid g c hm hty
    simp [runLaterLottery, hm, hty]
  · intro s cid g c hm hty hg
    obtain ⟨parts2, ds, heq, hun, hsum, hle, hcnt⟩ :=
      drawAllPrizes_spec g hg c.prizes 0 c.participants
        (eligibleIdx c.participants) [] (eligOk_eligibleIdx c.participants)
    refine ⟨ds, parts2, ?_, hsum, ?_, hcnt, ?_⟩
    · simp only [runLaterLottery, hm]
      rw [if_neg (by simp [hty]), heq]
      simp
    · rw [← length_eligibleIdx]
      exact hle
    · intro j p hj hw
      have hnotel : j ∉ eligibleIdx c.participants := by
        simp only [eligibleIdx, List.mem_filter, List.mem_range,
          Bool.not_eq_true']
        rintro ⟨hlt, hwb⟩
        rw [List.get?_eq_getElem?, List.getElem?_eq_getElem hlt] at hj
        have hjp : c.participants[j] = p := by injection hj
        rw [List.getD_eq_getElem _ _ hlt, hjp, hw] at hwb
        exact absurd hwb (by simp)
      rw [hun j hnotel, hj]

/-- C5 witness: the later-lottery fixture campaign drawn with the
constant-zero random stream. -/
theorem runLaterLottery_bounds_witness :
    ∃ winners parts2,
      runLaterLottery [("c1", campLater)] "c1" (fun _ => 0) =
        some (winners, mapSet [("c1", campLater)] "c1"
          { campLater with participants := parts2 }) ∧
      winners.length ≤
        (campLater.prizes.map (fun p => p.quantity.toNat)).sum ∧
      winners.length ≤
        (campLater.participants.filter (fun p => !p.won)).length ∧
      parts2.countP (fun p => p.won) =
        campLater.participants.countP (fun p => p.won) + winners.length ∧
      (∀ j p, campLater.participants.get? j = some p → p.won = true →
        parts2.get? j = some p) :=
  runLaterLottery_bounds.2 [("c1", campLater)] "c1" (fun _ => 0) campLater
    (by decide) (by decide) (fun _ => ⟨le_refl 0, by norm_num⟩)

end Howto
